import Mathlib

/-!
Verification of the log-parsing, time-alignment and statistics core of the
bufferbloat measurement scripts (`helper.py`, `plot_tcpprobe.py`,
`plot_ping.py`, `bufferbloat.py`).

Python strings are embedded as `List Char`; Python floats are embedded as
exact rationals `ℚ` (with `Real.sqrt` for square roots); fallible
operations return `Option`.
-/

namespace A2

/-! ### Character-list helpers modelling Python string operations -/

/-- Models Python `s.startswith(pre)` on character lists. -/
def startsW : List Char → List Char → Bool
  | [], _ => true
  | _ :: _, [] => false
  | p :: ps, c :: cs => p = c && startsW ps cs

/-- Models Python `s.split(sep, 1)`: splits at the first occurrence of the
separator `sep`, returning `none` when `sep` does not occur (so `isSome`
models Python `sep in s`). -/
def splitFirstOn (sep : List Char) : List Char → Option (List Char × List Char)
  | [] => if sep.isEmpty then some ([], []) else none
  | c :: rest =>
    if startsW sep (c :: rest) then some ([], (c :: rest).drop sep.length)
    else
      match splitFirstOn sep rest with
      | none => none
      | some (a, b) => some (c :: a, b)

/-- Models Python `sep in s` (substring containment). -/
def containsSub (sep s : List Char) : Bool :=
  (splitFirstOn sep s).isSome

/-- Helper for `wsTokens`: accumulates the current (reversed) token. -/
def wsTokensGo (cur : List Char) : List Char → List (List Char)
  | [] => if cur.isEmpty then [] else [cur.reverse]
  | c :: rest =>
    if c.isWhitespace then
      if cur.isEmpty then wsTokensGo [] rest
      else cur.reverse :: wsTokensGo [] rest
    else wsTokensGo (c :: cur) rest

/-- Models Python `s.split()` (split on whitespace runs, no empty tokens). -/
def wsTokens (s : List Char) : List (List Char) :=
  wsTokensGo [] s

/-- Models Python `s.strip()`. -/
def trimWs (s : List Char) : List Char :=
  ((s.dropWhile Char.isWhitespace).reverse.dropWhile Char.isWhitespace).reverse

/-- Models Python `s.split(sep)` for a single-character separator:
always returns at least one (possibly empty) token. -/
def splitOnChar (sep : Char) : List Char → List (List Char)
  | [] => [[]]
  | c :: rest =>
    let r := splitOnChar sep rest
    if c = sep then [] :: r
    else
      match r with
      | [] => [[c]]
      | t :: ts => (c :: t) :: ts

/-- Models Python `s.rstrip(":")`. -/
def dropTrailingColons (s : List Char) : List Char :=
  (s.reverse.dropWhile (fun c => c = ':')).reverse

/-- Numeric value of a digit string (most significant digit first). -/
def digitsVal (s : List Char) : ℕ :=
  s.foldl (fun acc c => 10 * acc + (c.toNat - '0'.toNat)) 0

/-- Parses an unsigned all-digit string, as accepted by Python `int`. -/
def parseNatAll (s : List Char) : Option ℕ :=
  if s.isEmpty then none
  else if s.all Char.isDigit then some (digitsVal s) else none

/-- Models Python `int(str)`: optional surrounding whitespace, optional
sign, then digits only. -/
def parseInt (s : List Char) : Option ℤ :=
  match trimWs s with
  | [] => none
  | c :: u =>
    if c = '-' then (parseNatAll u).map (fun n => -(n : ℤ))
    else if c = '+' then (parseNatAll u).map (fun n => (n : ℤ))
    else (parseNatAll (c :: u)).map (fun n => (n : ℤ))

/-- Unsigned decimal literal: `digits`, `digits.digits`, `digits.` or
`.digits` (at least one digit overall), valued exactly as a rational. -/
def parseUF (s : List Char) : Option ℚ :=
  let ip := s.takeWhile Char.isDigit
  let rest := s.dropWhile Char.isDigit
  match rest with
  | [] => if ip.isEmpty then none else some (digitsVal ip : ℚ)
  | c :: fp =>
    if c = '.' then
      if fp.all Char.isDigit && !(ip.isEmpty && fp.isEmpty) then
        some ((digitsVal ip : ℚ) + (digitsVal fp : ℚ) / (10 ^ fp.length))
      else none
    else none

/-- Models Python `float(str)` on the plain decimal fragment used by these
logs (optional surrounding whitespace, optional sign, decimal literal;
no exponents, infinities or NaN appear in the trace formats). -/
def parseFloat (s : List Char) : Option ℚ :=
  match trimWs s with
  | [] => none
  | c :: u =>
    if c = '-' then (parseUF u).map (fun q => -q)
    else if c = '+' then parseUF u
    else parseUF (c :: u)

/-- Models Python `str(n)` for a natural number. -/
def natChars (n : ℕ) : List Char :=
  Nat.toDigits 10 n

/-- Models Python `str(i)` for an integer. -/
def intChars (i : ℤ) : List Char :=
  if i < 0 then '-' :: natChars i.natAbs else natChars i.toNat

/-! ### Statistics helpers, translated from `helper.py` -/

/-- Translated from `helper.avg` (lines 84-89): arithmetic mean,
`0.0` on empty input. -/
def avg (lst : List ℚ) : ℚ :=
  if lst.isEmpty then 0 else lst.sum / lst.length

/-- The variance radicand computed inside `helper.stdev` (line 100):
`sum((x - mean)^2) / len(nums)`; exact rational arithmetic. -/
def stdevVar (lst : List ℚ) : ℚ :=
  ((lst.map (fun x => (x - avg lst) ^ 2)).sum : ℚ) / lst.length

/-- Translated from `helper.stdev` (lines 92-101): `0.0` on empty input,
otherwise the square root of `sum((x - mean)^2) / len(nums)`. -/
noncomputable def stdev (lst : List ℚ) : ℝ :=
  if lst.isEmpty then 0 else Real.sqrt (stdevVar lst : ℚ)

/-- Models Python float division `a / b`, which raises
`ZeroDivisionError` (here `none`) when `b = 0`. -/
noncomputable def pyDiv (a b : ℝ) : Option ℝ :=
  if b = 0 then none else some (a / b)

/-- Translated from `helper.coeff_variation` (lines 187-193): `0.0` on the
empty list, otherwise `stdev(lst) / avg(lst)` by Python float division. -/
noncomputable def coeff_variation (lst : List ℚ) : Option ℝ :=
  if lst.isEmpty then some 0 else pyDiv (stdev lst) ((avg lst : ℚ) : ℝ)

/-- Translated from `helper.ewma` (lines 32-43), the loop body:
`prev = alpha * prev + (1 - alpha) * v` with each new `prev` appended. -/
def ewmaGo (alpha : ℚ) (prev : ℚ) : List ℚ → List ℚ
  | [] => []
  | v :: vs =>
    let nxt := alpha * prev + (1 - alpha) * v
    nxt :: ewmaGo alpha nxt vs

/-- Translated from `helper.ewma` (lines 32-43): when `alpha == 0` the
input list is returned unchanged, otherwise the smoothing loop runs
starting from `prev = 0.0`. -/
def ewma (alpha : ℚ) (values : List ℚ) : List ℚ :=
  if alpha = 0 then values else ewmaGo alpha 0 values

/-- Boolean order on `ℚ` used when modelling Python `sorted`. -/
def qLe (a b : ℚ) : Bool :=
  decide (a ≤ b)

/-- Translated from `helper.pc95` (lines 165-173): `None` on empty input,
otherwise the element of the ascending sort at index `int(0.95 * n)`
(Python list indexing, `none` here standing for an `IndexError`). -/
def pc95 (lst : List ℚ) : Option ℚ :=
  if lst.isEmpty then none
  else
    (lst.mergeSort qLe)[(⌊(95 / 100 : ℚ) * lst.length⌋₊ : ℕ)]?

/-- Translated from `helper.pc99` (lines 176-184): `None` on empty input,
otherwise the element of the ascending sort at index `int(0.99 * n)`. -/
def pc99 (lst : List ℚ) : Option ℚ :=
  if lst.isEmpty then none
  else
    (lst.mergeSort qLe)[(⌊(99 / 100 : ℚ) * lst.length⌋₊ : ℕ)]?

/-- Translated from `bufferbloat.py` lines 261-277 (the fetch-time summary
block): the inline standard deviation over the collected fetch times, with
`sum((x - average)^2) / (length - 1)` when `length > 1` and `0.0`
otherwise. -/
noncomputable def bufferbloatStd (lst : List ℚ) : ℝ :=
  if 1 < lst.length then
    Real.sqrt ((((lst.map (fun x => (x - avg lst) ^ 2)).sum : ℚ) / ((lst.length : ℚ) - 1) : ℚ))
  else 0

/-! ### TCP-probe trace parsing, translated from `plot_tcpprobe.py` -/

/-- Insertion into a Python dict modelled as an association list, with a
later assignment overwriting the earlier binding. -/
def kvInsert (kv : List (List Char × List Char)) (k v : List Char) :
    List (List Char × List Char) :=
  match kv with
  | [] => [(k, v)]
  | (k', v') :: rest =>
    if k' = k then (k', v) :: rest else (k', v') :: kvInsert rest k v

/-- Lookup in a Python dict modelled as an association list
(`dict.get(k)`). -/
def kvGet (kv : List (List Char × List Char)) (k : List Char) :
    Option (List Char) :=
  match kv with
  | [] => none
  | (k', v) :: rest => if k' = k then some v else kvGet rest k

/-- Translated from `plot_tcpprobe.parse_tcp_probe_file` lines 71-75: the
`key=value` tokens of the probe payload collected into a dict. -/
def buildKv (tokens : List (List Char)) : List (List Char × List Char) :=
  tokens.foldl
    (fun kv tok =>
      match splitFirstOn ['='] tok with
      | none => kv
      | some (k, v) => kvInsert kv k v)
    []

/-- Translated from lines 78-87: `kv.get(field, "").split(":")`, the
`len < 2` guard, and `int(parts[1])`; `none` models `continue`. -/
def portIndex1 (s : List Char) : Option ℤ :=
  let parts := splitOnChar ':' s
  if parts.length < 2 then none else parseInt (parts.getD 1 [])

/-- Translated from line 99: `cwnd_raw * MSS / KB` with `MSS = 1480` and
`KB = 1024.0`, exact in `ℚ`. -/
def cwndKB (raw : ℤ) : ℚ :=
  (raw : ℚ) * 1480 / 1024

/-- Translated from lines 96-99: `int(kv.get("snd_cwnd", 0))` — a missing
field yields the integer default `0`; a malformed field raises
`ValueError` (`none`). -/
def sndCwndRaw (kv : List (List Char × List Char)) : Option ℤ :=
  match kvGet kv ("snd_cwnd".toList) with
  | none => some 0
  | some v => parseInt v

/-- Append to one key's list in a `defaultdict(list)` modelled as an
association list. -/
def dAppend (d : List (ℤ × List ℚ)) (k : ℤ) (v : ℚ) : List (ℤ × List ℚ) :=
  match d with
  | [] => [(k, [v])]
  | (k', vs) :: rest =>
    if k' = k then (k', vs ++ [v]) :: rest else (k', vs) :: dAppend rest k v

/-- Read one key's list from a `defaultdict(list)` (missing key reads as
the fresh empty list). -/
def dGet (d : List (ℤ × List ℚ)) (k : ℤ) : List ℚ :=
  match d with
  | [] => []
  | (k', vs) :: rest => if k' = k then vs else dGet rest k

/-- The two `defaultdict(list)` accumulators of
`parse_tcp_probe_file`: per-source-port timestamp and cwnd lists. -/
structure ProbeAcc where
  times : List (ℤ × List ℚ)
  cwnds : List (ℤ × List ℚ)
deriving DecidableEq

/-- The literal marker `tcp_probe:`. -/
def probeMarker : List Char :=
  "tcp_probe:".toList

/-- Translated from `plot_tcpprobe.parse_tcp_probe_file` lines 55-102, the
body of the per-line loop: each `continue` returns the accumulator
unchanged; note that `times[sport].append(timestamp)` at line 95 happens
before the `snd_cwnd` conversion at line 98 is attempted. -/
def probeLineStep (port : List Char) (use_sport : Bool) (acc : ProbeAcc)
    (line : List Char) : ProbeAcc :=
  if (splitFirstOn probeMarker line).isNone then acc
  else
    match splitFirstOn probeMarker (trimWs line) with
    | none => acc
    | some (header, probe) =>
      let parts := wsTokens header
      if parts.length < 4 then acc
      else
        match parseFloat (dropTrailingColons (parts.getLastD [])) with
        | none => acc
        | some timestamp =>
          let kv := buildKv (wsTokens (trimWs probe))
          match portIndex1 ((kvGet kv ("src".toList)).getD []),
                portIndex1 ((kvGet kv ("dest".toList)).getD []) with
          | some sport, some dport =>
            if intChars (if use_sport then sport else dport) ≠ port then acc
            else
              let acc1 : ProbeAcc := ⟨dAppend acc.times sport timestamp, acc.cwnds⟩
              match sndCwndRaw kv with
              | none => acc1
              | some raw => ⟨acc1.times, dAppend acc1.cwnds sport (cwndKB raw)⟩
          | _, _ => acc

/-- Diagnostic messages the scripts print to `stderr` (or that an uncaught
exception's traceback produces). -/
inductive Diag where
  | fileNotFound
  | noTcpEvents
  | noPingData
  | uncaughtTraceback
deriving DecidableEq

/-- Translated from `plot_tcpprobe.parse_tcp_probe_file` lines 53-108: a
missing/unreadable file (`none`) is caught, reported, and yields the empty
accumulators; otherwise every line is folded through `probeLineStep`. -/
def parse_tcp_probe_file (content : Option (List (List Char)))
    (port : List Char) (use_sport : Bool) : ProbeAcc × List Diag :=
  match content with
  | none => (⟨[], []⟩, [Diag.fileNotFound])
  | some lines => (lines.foldl (probeLineStep port use_sport) ⟨[], []⟩, [])

/-- One parsed TCP probe event (`plot_tcpprobe.TCPEvent`, lines 23-28). -/
structure TCPEvent where
  timestamp : ℚ
  sport : ℤ
  cwnd : ℚ
deriving DecidableEq

/-- Boolean order on `ℤ` used when modelling Python `sorted`. -/
def zLe (a b : ℤ) : Bool :=
  decide (a ≤ b)

/-- Boolean timestamp order on events, the sort key of
`plot_cwnd_timeseries` line 167. -/
def evLe (a b : TCPEvent) : Bool :=
  decide (a.timestamp ≤ b.timestamp)

/-- Translated from `plot_cwnd_timeseries` lines 134-146 (first pass):
for each parsed file, iterate source ports in sorted order over the cwnd
dict, skip ports with an empty timestamp list, and collect
`(sport, timestamps, cwnd_values)` triples in input order. -/
def collectSeries (parsed : List ProbeAcc) : List (ℤ × List ℚ × List ℚ) :=
  parsed.flatMap
    (fun acc =>
      ((acc.cwnds.map Prod.fst).mergeSort zLe).filterMap
        (fun sport =>
          let ts := dGet acc.times sport
          if ts.isEmpty then none else some (sport, ts, dGet acc.cwnds sport)))

/-- The concatenation `all_timestamps` of lines 145: every timestamp of
every collected series, in input order. -/
def allTs (collected : List (ℤ × List ℚ × List ℚ)) : List ℚ :=
  collected.flatMap (fun s => s.2.1)

/-- Translated from lines 155-161 (second pass): per-series timestamps
normalized by the global start, zipped with cwnd values into events, and
concatenated in input order. -/
def normEvents (gs : ℚ) (collected : List (ℤ × List ℚ × List ℚ)) :
    List TCPEvent :=
  collected.flatMap
    (fun s => List.zipWith (fun t c => ⟨t - gs, s.1, c⟩) s.2.1 s.2.2)

/-- Translated from `plot_cwnd_timeseries` lines 148-168: if no timestamp
was collected anywhere return `[]`; otherwise subtract the global minimum
timestamp from every event and stable-sort the merged events
chronologically. -/
def alignEvents (collected : List (ℤ × List ℚ × List ℚ)) : List TCPEvent :=
  match (allTs collected).min? with
  | none => []
  | some gs => (normEvents gs collected).mergeSort evLe

/-- Translated from `plot_cwnd_timeseries` (lines 111-168), composed from
its two passes over the parsed per-file data. -/
def plot_cwnd_timeseries (parsed : List ProbeAcc) : List TCPEvent :=
  alignEvents (collectSeries parsed)

/-- Lookup in the `latest_cwnd_by_port` dict of `calculate_total_cwnd`. -/
def zqGet (d : List (ℤ × ℚ)) (k : ℤ) : Option ℚ :=
  match d with
  | [] => none
  | (k', v) :: rest => if k' = k then some v else zqGet rest k

/-- Assignment `d[k] = v` in the `latest_cwnd_by_port` dict. -/
def zqInsert (d : List (ℤ × ℚ)) (k : ℤ) (v : ℚ) : List (ℤ × ℚ) :=
  match d with
  | [] => [(k, v)]
  | (k', v') :: rest =>
    if k' = k then (k', v) :: rest else (k', v') :: zqInsert rest k v

/-- Translated from `calculate_total_cwnd` lines 184-202, the loop:
running total, per-port latest-cwnd dict, and the two output lists. -/
def calcGo (total : ℚ) (latest : List (ℤ × ℚ)) :
    List TCPEvent → List ℚ × List ℚ
  | [] => ([], [])
  | e :: rest =>
    let total1 :=
      match zqGet latest e.sport with
      | some prev => total - prev
      | none => total
    let total2 := total1 + e.cwnd
    let r := calcGo total2 (zqInsert latest e.sport e.cwnd) rest
    (e.timestamp :: r.1, total2 :: r.2)

/-- Translated from `plot_tcpprobe.calculate_total_cwnd` (lines 171-202):
returns the parallel `(timestamps, total_cwnd_values)` lists. -/
def calculate_total_cwnd (events : List TCPEvent) : List ℚ × List ℚ :=
  if events.isEmpty then ([], []) else calcGo 0 [] events

/-- Outcome of a script run: ordered diagnostics and the process exit
status. -/
structure RunResult where
  diags : List Diag
  exitCode : ℕ
deriving DecidableEq

/-- Translated from `plot_tcpprobe.main` lines 267-305 (plotting calls
omitted): parse every file, plot the timeseries, and when no events were
found print a diagnostic to `stderr`; `main` never calls `sys.exit`, so
the process always terminates with status `0`. -/
def tcpprobeMain (files : List (Option (List (List Char))))
    (port : List Char) (use_sport : Bool) : RunResult :=
  let parsed := files.map (fun c => parse_tcp_probe_file c port use_sport)
  let fileDiags := parsed.flatMap (fun p => p.2)
  let events := plot_cwnd_timeseries (parsed.map Prod.fst)
  if events.isEmpty then ⟨fileDiags ++ [Diag.noTcpEvents], 0⟩
  else ⟨fileDiags, 0⟩

/-! ### Ping parsing, translated from `plot_ping.py` -/

/-- Translated from `plot_ping.parse_ping` lines 29-37, the token scan:
`token.split("=")[1]` parsed as a float; the substring between the first
and second `=` of the token. -/
def pingTokenVal (tok : List Char) : Option ℚ :=
  parseFloat ((splitOnChar '=' tok).getD 1 [])

/-- Translated from `plot_ping.parse_ping` lines 24-37, one line: lines
without `bytes from` are skipped; otherwise the first whitespace token
starting with `time=` is examined (the loop breaks after it) and a failed
float conversion is swallowed. -/
def pingLineRtt (line : List Char) : Option ℚ :=
  if !containsSub ("bytes from".toList) line then none
  else
    match (wsTokens (trimWs line)).find? (fun tok => startsW ("time=".toList) tok) with
    | none => none
    | some tok => pingTokenVal tok

/-- Translated from `plot_ping.parse_ping` lines 21-38, the file loop:
the sequence counter increments only on a successful parse. -/
def parsePingGo (seq : ℕ) : List (List Char) → List (ℕ × ℚ)
  | [] => []
  | line :: rest =>
    match pingLineRtt line with
    | none => parsePingGo seq rest
    | some r => (seq, r) :: parsePingGo (seq + 1) rest

/-- Translated from `plot_ping.parse_ping` (lines 16-38). -/
def parse_ping (lines : List (List Char)) : List (ℕ × ℚ) :=
  parsePingGo 0 lines

/-- Translated from `plot_ping.main` lines 72-85 (plotting omitted): files
are processed in order; a missing file raises an uncaught
`FileNotFoundError` (traceback, exit status 1); a file with no parsed
samples prints an error and calls `sys.exit(1)`; otherwise processing
continues and the script exits with status `0`. -/
def pingMain : List (Option (List (List Char))) → RunResult
  | [] => ⟨[], 0⟩
  | none :: _ => ⟨[Diag.uncaughtTraceback], 1⟩
  | some lines :: rest =>
    if (parse_ping lines).isEmpty then ⟨[Diag.noPingData], 1⟩
    else pingMain rest

/-! ### Spec-side definitions (for refinement claims) -/

/-- Modelled from the spec's words for `reconstructTotal` (§4.4): for each
event `(ts, key, value)`, subtract the key's previously recorded value
from the running total if one exists, add `value`, record `value` as the
key's latest, and append `(ts, runningTotal)` to the output. The last-value
map is a plain function here. -/
def reconstructTotalGo (total : ℚ) (m : ℤ → Option ℚ) :
    List TCPEvent → List (ℚ × ℚ)
  | [] => []
  | e :: rest =>
    let total' := total - ((m e.sport).getD 0) + e.cwnd
    (e.timestamp, total') ::
      reconstructTotalGo total'
        (fun k => if k = e.sport then some e.cwnd else m k) rest

/-- Modelled from the spec's words for `reconstructTotal` (§4.4), starting
from total `0` and the empty last-value map. -/
def reconstructTotal (events : List TCPEvent) : List (ℚ × ℚ) :=
  reconstructTotalGo 0 (fun _ => none) events

/-- Modelled from the spec's words for `stdevSample` (§4.5): denominator
`n - 1`, and `0.0` whenever `n ≤ 1`. -/
noncomputable def stdevSampleSpec (lst : List ℚ) : ℝ :=
  if lst.length ≤ 1 then 0
  else
    Real.sqrt ((((lst.map (fun x => (x - avg lst) ^ 2)).sum : ℚ) / ((lst.length : ℚ) - 1) : ℚ))

/-- Modelled from the spec's words for `ewma` (§4.5): the recurrence
`s0 = 0`, `s_t = alpha * s_(t-1) + (1 - alpha) * x_t`, with no special
case. -/
def ewmaSpecGo (alpha s : ℚ) : List ℚ → List ℚ
  | [] => []
  | x :: xs =>
    let s' := alpha * s + (1 - alpha) * x
    s' :: ewmaSpecGo alpha s' xs

/-- Modelled from the spec's words for `ewma` (§4.5). -/
def ewmaSpec (alpha : ℚ) (xs : List ℚ) : List ℚ :=
  ewmaSpecGo alpha 0 xs

/-! ### Concrete inputs used by examples, counterexamples and witnesses -/

/-- A trace line whose `snd_cwnd` field fails the integer conversion. -/
def badCwndLine : List Char :=
  "host-1234 [001] d.hi 12.345: tcp_probe: src=10.0.0.2:5001 dest=10.0.0.1:443 snd_cwnd=oops".toList

/-- A fully valid trace line (`snd_cwnd=4`). -/
def goodCwndLine : List Char :=
  "host-1234 [001] d.hi 13.345: tcp_probe: src=10.0.0.2:5001 dest=10.0.0.1:443 snd_cwnd=4".toList

/-- A ping line whose RTT token carries an attached unit suffix. -/
def pingSuffixLine : List Char :=
  "64 bytes from 10.0.0.1: icmp_seq=1 ttl=64 time=23.5ms".toList

/-- A ping line in the format the parser expects (`ms` as its own token). -/
def pingPlainLine : List Char :=
  "64 bytes from 10.0.0.1: icmp_seq=1 ttl=64 time=23.5 ms".toList

/-- The aligner input of the spec's example: file A with raw timestamps
`[5,6,7]`, file B with raw timestamps `[2,3,4]`. -/
def exCollected : List (ℤ × List ℚ × List ℚ) :=
  [(1001, [5, 6, 7], [10, 20, 30]), (1002, [2, 3, 4], [1, 2, 3])]

/-- The merged event list of the spec's reconstruction example. -/
def exEvents : List TCPEvent :=
  [⟨0, 1, 10⟩, ⟨1, 2, 5⟩, ⟨2, 1, 20⟩]

/-! ### Shared lemmas -/

theorem ewmaGo_eq_specGo (alpha : ℚ) :
    ∀ (xs : List ℚ) (s : ℚ), ewmaGo alpha s xs = ewmaSpecGo alpha s xs := by
  intro xs
  induction xs with
  | nil => intro s; rfl
  | cons x xs ih => intro s; simp [ewmaGo, ewmaSpecGo, ih]

theorem ewmaSpecGo_zero : ∀ (xs : List ℚ) (s : ℚ), ewmaSpecGo 0 s xs = xs := by
  intro xs
  induction xs with
  | nil => intro s; rfl
  | cons x xs ih =>
    intro s
    have h : (0 : ℚ) * s + (1 - 0) * x = x := by ring
    simp only [ewmaSpecGo, h, ih]

theorem charVal0 : ('0'.toNat : ℕ) = 48 := rfl

theorem charVal1 : ('1'.toNat : ℕ) = 49 := rfl

theorem charVal2 : ('2'.toNat : ℕ) = 50 := rfl

theorem charVal3 : ('3'.toNat : ℕ) = 51 := rfl

theorem charVal4 : ('4'.toNat : ℕ) = 52 := rfl

theorem charVal5 : ('5'.toNat : ℕ) = 53 := rfl

theorem charVal6 : ('6'.toNat : ℕ) = 54 := rfl

theorem charVal7 : ('7'.toNat : ℕ) = 55 := rfl

theorem charVal8 : ('8'.toNat : ℕ) = 56 := rfl

theorem charVal9 : ('9'.toNat : ℕ) = 57 := rfl

theorem zqGet_insert : ∀ (d : List (ℤ × ℚ)) (k : ℤ) (v : ℚ) (k' : ℤ),
    zqGet (zqInsert d k v) k' = if k' = k then some v else zqGet d k' := by
  intro d
  induction d with
  | nil =>
    intro k v k'
    simp only [zqInsert, zqGet]
    by_cases h : k' = k
    · subst h; simp
    · rw [if_neg (fun hh => h hh.symm), if_neg h]
  | cons p rest ih =>
    intro k v k'
    obtain ⟨a, b⟩ := p
    by_cases hak : a = k
    · subst hak
      by_cases h : a = k'
      · subst h; simp [zqInsert, zqGet]
      · simp [zqInsert, zqGet, h, Ne.symm h]
    · by_cases h : a = k'
      · subst h
        simp [zqInsert, zqGet, hak]
      · simp [zqInsert, zqGet, hak, h, ih]

theorem calcGo_eq_reconstructGo :
    ∀ (events : List TCPEvent) (total : ℚ) (latest : List (ℤ × ℚ))
      (m : ℤ → Option ℚ),
      (∀ k, zqGet latest k = m k) →
      calcGo total latest events =
        ((reconstructTotalGo total m events).map Prod.fst,
         (reconstructTotalGo total m events).map Prod.snd) := by
  intro events
  induction events with
  | nil => intro total latest m _; rfl
  | cons e rest ih =>
    intro total latest m hm
    have htot :
        (match zqGet latest e.sport with
          | some prev => total - prev
          | none => total) + e.cwnd =
          total - ((m e.sport).getD 0) + e.cwnd := by
      rw [hm e.sport]
      cases m e.sport with
      | none => simp
      | some prev => simp
    have hmap : ∀ k,
        zqGet (zqInsert latest e.sport e.cwnd) k =
          (fun k => if k = e.sport then some e.cwnd else m k) k := by
      intro k
      rw [zqGet_insert]
      by_cases h : k = e.sport <;> simp [h, hm k]
    simp only [calcGo, reconstructTotalGo, List.map_cons]
    rw [ih _ _ _ hmap]
    simp only [htot]

/-- Transitivity of the Boolean event order. -/
theorem evLe_trans : ∀ a b c : TCPEvent,
    evLe a b = true → evLe b c = true → evLe a c = true := by
  intro a b c hab hbc
  simp only [evLe, decide_eq_true_eq] at *
  exact le_trans hab hbc

/-- Totality of the Boolean event order. -/
theorem evLe_total : ∀ a b : TCPEvent, (evLe a b || evLe b a) = true := by
  intro a b
  simp only [evLe, Bool.or_eq_true, decide_eq_true_eq]
  exact le_total a.timestamp b.timestamp

/-! ### Claim theorems -/

/-- C9: `ewma(0, xs)` returns the input sequence unchanged, and for every
`alpha` the output of `ewma` follows the spec recurrence `s0 = 0`,
`s_t = alpha * s_(t-1) + (1 - alpha) * x_t`. -/
theorem c9_ewma_identity_and_recurrence :
    (∀ xs : List ℚ, ewma 0 xs = xs) ∧
    (∀ (alpha : ℚ) (xs : List ℚ), ewma alpha xs = ewmaSpec alpha xs) := by
  constructor
  · intro xs; simp [ewma]
  · intro alpha xs
    by_cases h : alpha = 0
    · subst h
      simp [ewma, ewmaSpec, ewmaSpecGo_zero]
    · simp [ewma, ewmaSpec, h, ewmaGo_eq_specGo]

/-- C1: `calculate_total_cwnd` computes exactly the per-key last-value /
running-total replay described by the spec (`reconstructTotal`), returned
as the parallel timestamp and total lists; on the events
`(0,1,10) (1,2,5) (2,1,20)` it yields the totals `[10, 15, 25]`. -/
theorem c1_calculate_total_cwnd :
    (∀ events : List TCPEvent,
       calculate_total_cwnd events =
         ((reconstructTotal events).map Prod.fst,
          (reconstructTotal events).map Prod.snd)) ∧
    calculate_total_cwnd exEvents = ([0, 1, 2], [10, 15, 25]) := by
  constructor
  · intro events
    have h := calcGo_eq_reconstructGo events 0 [] (fun _ => none)
      (fun _ => rfl)
    cases events with
    | nil => rfl
    | cons e rest =>
      simpa [calculate_total_cwnd, reconstructTotal] using h
  · norm_num [calculate_total_cwnd, calcGo, zqGet, zqInsert, exEvents]

/-- C5 counterexample: on the list `[0, 2]`, `helper.stdev` returns `1`
(denominator `n = 2`), while the sample standard deviation with
denominator `n - 1` is `√2`, so `helper.stdev` is not the unbiased
`n - 1` estimator the claim describes. -/
theorem c5_counterexample :
    stdev [0, 2] = 1 ∧ stdevSampleSpec [0, 2] = Real.sqrt 2 ∧
      stdev [0, 2] ≠ stdevSampleSpec [0, 2] := by
  have hv : stdevVar [0, 2] = 1 := by norm_num [stdevVar, avg]
  have h1 : stdev [0, 2] = 1 := by
    simp [stdev, hv]
  have h2 : stdevSampleSpec [0, 2] = Real.sqrt 2 := by
    rw [stdevSampleSpec, if_neg (by norm_num)]
    rw [show ((([0, 2].map (fun x => ((x : ℚ) - avg [0, 2]) ^ 2)).sum : ℚ) /
        ((([0, 2] : List ℚ).length : ℚ) - 1) : ℚ) = (2 : ℚ) from by norm_num [avg]]
    norm_num
  have h3 : (1 : ℝ) < Real.sqrt 2 := by
    rw [show (1 : ℝ) = Real.sqrt 1 from Real.sqrt_one.symm]
    exact Real.sqrt_lt_sqrt (by norm_num) (by norm_num)
  refine ⟨h1, h2, ?_⟩
  rw [h1, h2]
  exact ne_of_lt h3

/-- C5 (amended): `helper.stdev` is the population standard deviation
(denominator `n`) and returns `0.0` whenever `n ≤ 1`; the unbiased
`n - 1` estimator used for the cross-run fetch-time summary, with `0.0`
for `n ≤ 1`, is the inline computation in `bufferbloat.py`, which matches
the spec's `stdevSample` exactly. -/
theorem c5_stdev_denominators :
    ∀ lst : List ℚ,
      (lst.length ≤ 1 → stdev lst = 0) ∧
      bufferbloatStd lst = stdevSampleSpec lst := by
  intro lst
  constructor
  · intro h
    rcases lst with _ | ⟨x, _ | ⟨y, r⟩⟩
    · simp [stdev]
    · have hv : stdevVar [x] = 0 := by
        simp [stdevVar, avg]
      simp [stdev, hv]
    · simp at h
  · by_cases hl : lst.length ≤ 1
    · have h2 : ¬ 1 < lst.length := by omega
      simp [bufferbloatStd, stdevSampleSpec, hl, h2]
    · have h2 : 1 < lst.length := by omega
      simp [bufferbloatStd, stdevSampleSpec, hl, h2]

/-- C5 witness: the amended theorem applied at the singleton `[5]`. -/
theorem c5_witness :
    stdev [(5 : ℚ)] = 0 ∧ bufferbloatStd [(5 : ℚ)] = stdevSampleSpec [(5 : ℚ)] :=
  ⟨(c5_stdev_denominators [(5 : ℚ)]).1 (by simp),
   (c5_stdev_denominators [(5 : ℚ)]).2⟩

/-- C6 counterexample: the non-empty list `[1, -1]` has mean `0`, and
`helper.coeff_variation` on it reaches the division with a zero
denominator — a `ZeroDivisionError` (modelled as `none`), not a guarded
return. -/
theorem c6_counterexample : coeff_variation [1, -1] = none := by
  have ha : avg [1, -1] = 0 := by norm_num [avg]
  simp [coeff_variation, pyDiv, ha]

/-- C6 (amended): `coeff_variation` returns `stdev(lst) / avg(lst)` for
non-empty input with nonzero mean and `0.0` on empty input; the explicit
guard covers only the empty case, so for a non-empty input whose mean is
`0` the division raises `ZeroDivisionError` (modelled as `none`). -/
theorem c6_coeff_variation_guard :
    ∀ lst : List ℚ,
      (lst = [] → coeff_variation lst = some 0) ∧
      (lst ≠ [] → avg lst ≠ 0 →
        coeff_variation lst = some (stdev lst / ((avg lst : ℚ) : ℝ))) ∧
      (lst ≠ [] → avg lst = 0 → coeff_variation lst = none) := by
  intro lst
  refine ⟨?_, ?_, ?_⟩
  · intro h; subst h; simp [coeff_variation]
  · intro h1 h2
    have hne : ((avg lst : ℚ) : ℝ) ≠ 0 := by exact_mod_cast h2
    simp [coeff_variation, pyDiv, h1, hne]
  · intro h1 h2
    simp [coeff_variation, pyDiv, h1, h2]

/-- C6 witness: the amended theorem applied at `[]`, `[2]` and
`[1, -1]`. -/
theorem c6_witness :
    coeff_variation [] = some 0 ∧
    coeff_variation [(2 : ℚ)] =
      some (stdev [(2 : ℚ)] / ((avg [(2 : ℚ)] : ℚ) : ℝ)) ∧
    coeff_variation [1, -1] = none :=
  ⟨(c6_coeff_variation_guard []).1 rfl,
   (c6_coeff_variation_guard [(2 : ℚ)]).2.1 (by simp) (by norm_num [avg]),
   (c6_coeff_variation_guard [1, -1]).2.2 (by simp) (by norm_num [avg])⟩

/-- C10: `pc95`/`pc99` index the sorted list at `int(0.95 * n)`
(respectively `int(0.99 * n)`), which is always strictly below `n` for a
non-empty list, so the indexing never goes out of bounds; on the empty
list both return `None`. -/
theorem c10_percentile_bounds :
    ∀ lst : List ℚ,
      (lst = [] → pc95 lst = none ∧ pc99 lst = none) ∧
      (lst ≠ [] →
        ⌊(95 / 100 : ℚ) * lst.length⌋₊ < lst.length ∧
        ⌊(99 / 100 : ℚ) * lst.length⌋₊ < lst.length ∧
        (pc95 lst).isSome = true ∧ (pc99 lst).isSome = true) := by
  intro lst
  constructor
  · intro h; subst h; simp [pc95, pc99]
  · intro h
    have hn : 0 < lst.length := List.length_pos.mpr h
    have hq : (0 : ℚ) < lst.length := by exact_mod_cast hn
    have h95 : ⌊(95 / 100 : ℚ) * lst.length⌋₊ < lst.length := by
      rw [Nat.floor_lt (by positivity)]
      calc (95 / 100 : ℚ) * lst.length < 1 * lst.length :=
            mul_lt_mul_of_pos_right (by norm_num) hq
        _ = lst.length := one_mul _
    have h99 : ⌊(99 / 100 : ℚ) * lst.length⌋₊ < lst.length := by
      rw [Nat.floor_lt (by positivity)]
      calc (99 / 100 : ℚ) * lst.length < 1 * lst.length :=
            mul_lt_mul_of_pos_right (by norm_num) hq
        _ = lst.length := one_mul _
    have he : ¬ lst.isEmpty = true := by
      simp only [List.isEmpty_iff]
      exact h
    have hs95 : (pc95 lst).isSome = true := by
      rw [pc95, if_neg he]
      have hlen : ⌊(95 / 100 : ℚ) * lst.length⌋₊ < (lst.mergeSort qLe).length := by
        rw [List.length_mergeSort]
        exact h95
      rw [List.getElem?_eq_getElem hlen]
      rfl
    have hs99 : (pc99 lst).isSome = true := by
      rw [pc99, if_neg he]
      have hlen : ⌊(99 / 100 : ℚ) * lst.length⌋₊ < (lst.mergeSort qLe).length := by
        rw [List.length_mergeSort]
        exact h99
      rw [List.getElem?_eq_getElem hlen]
      rfl
    exact ⟨h95, h99, hs95, hs99⟩

/-- C10 witness: the theorem applied at `[]` and at the singleton `[3]`. -/
theorem c10_witness :
    (pc95 ([] : List ℚ) = none ∧ pc99 ([] : List ℚ) = none) ∧
    (⌊(95 / 100 : ℚ) * ([(3 : ℚ)] : List ℚ).length⌋₊ < ([(3 : ℚ)] : List ℚ).length ∧
     ⌊(99 / 100 : ℚ) * ([(3 : ℚ)] : List ℚ).length⌋₊ < ([(3 : ℚ)] : List ℚ).length ∧
     (pc95 [(3 : ℚ)]).isSome = true ∧ (pc99 [(3 : ℚ)]).isSome = true) :=
  ⟨(c10_percentile_bounds []).1 rfl,
   (c10_percentile_bounds [(3 : ℚ)]).2 (by simp)⟩

theorem splitOnChar_not_mem : ∀ (p : List Char) (c : Char), c ∉ p →
    splitOnChar c p = [p] := by
  intro p c
  induction p with
  | nil => intro _; rfl
  | cons x rest ih =>
    intro h
    simp only [List.mem_cons, not_or] at h
    obtain ⟨h1, h2⟩ := h
    simp [splitOnChar, Ne.symm h1, ih h2]

theorem splitOnChar_append : ∀ (h : List Char) (c : Char) (p : List Char),
    c ∉ h → splitOnChar c (h ++ c :: p) = h :: splitOnChar c p := by
  intro h c p
  induction h with
  | nil => intro _; simp [splitOnChar]
  | cons x rest ih =>
    intro hm
    simp only [List.mem_cons, not_or] at hm
    obtain ⟨h1, h2⟩ := hm
    simp [splitOnChar, Ne.symm h1, ih h2]

/-- C3: on a `src`/`dest` field of the shape `host:port` (no other colons),
the parser's `split(":")[1]` extraction is exactly the final
colon-delimited component, converted with `int`; the stored value is
exactly `snd_cwnd * 1480 / 1024`; and on a fully valid concrete line the
parser records sport `5001` (the `:`-suffix of `src=10.0.0.2:5001`) with
value `cwndKB 4 = 4 * 1480 / 1024` KB. -/
theorem c3_port_and_value_extraction :
    (∀ h p : List Char, ':' ∉ h → ':' ∉ p →
        splitOnChar ':' (h ++ ':' :: p) = [h, p] ∧
        (splitOnChar ':' (h ++ ':' :: p)).getLast? = some p ∧
        portIndex1 (h ++ ':' :: p) = parseInt p) ∧
    (∀ raw : ℤ, cwndKB raw = (raw : ℚ) * 1480 / 1024) ∧
    probeLineStep ("5001".toList) true ⟨[], []⟩ goodCwndLine =
      ⟨[(5001, [2669 / 200])], [(5001, [cwndKB 4])]⟩ := by
  refine ⟨?_, fun raw => rfl, ?_⟩
  · intro h p hh hp
    have hsplit : splitOnChar ':' (h ++ ':' :: p) = [h, p] := by
      rw [splitOnChar_append h ':' p hh, splitOnChar_not_mem p ':' hp]
    refine ⟨hsplit, by rw [hsplit]; rfl, ?_⟩
    simp [portIndex1, hsplit]
  · norm_num +decide [probeLineStep, goodCwndLine, probeMarker, splitFirstOn,
      startsW, trimWs, wsTokens, wsTokensGo, parseFloat, parseUF,
      dropTrailingColons, digitsVal, buildKv, kvInsert, kvGet, portIndex1,
      splitOnChar, parseInt, parseNatAll, intChars, natChars, Nat.toDigits,
      Nat.toDigitsCore, sndCwndRaw, cwndKB, dAppend, charVal0, charVal1,
      charVal2, charVal3, charVal4, charVal5, charVal6, charVal7, charVal8,
      charVal9]

/-- C3 witness: the extraction conjunct applied at the concrete field
`10.0.0.2:5001`. -/
theorem c3_witness :
    portIndex1 (("10.0.0.2".toList) ++ ':' :: ("5001".toList)) =
      parseInt ("5001".toList) :=
  (c3_port_and_value_extraction.1 ("10.0.0.2".toList) ("5001".toList)
    (by decide) (by decide)).2.2

/-- C4: on a line whose `snd_cwnd` field fails the integer conversion
(`snd_cwnd=oops`) the parser has already appended the timestamp before
attempting the conversion, so the line is not skipped entirely: the
timestamp dict gains an entry (`12.345` under port `5001`) while the cwnd
dict gains none, desynchronizing the two parallel lists that
`plot_cwnd_timeseries` later zips together; the following valid line is
still parsed. -/
theorem c4_snd_cwnd_partial_record :
    parse_tcp_probe_file (some [badCwndLine, goodCwndLine]) ("5001".toList) true =
      (⟨[(5001, [2469 / 200, 2669 / 200])], [(5001, [185 / 32])]⟩, []) := by
  norm_num +decide [parse_tcp_probe_file, probeLineStep, badCwndLine,
    goodCwndLine, probeMarker, splitFirstOn, startsW, trimWs, wsTokens,
    wsTokensGo, parseFloat, parseUF, dropTrailingColons, digitsVal, buildKv,
    kvInsert, kvGet, portIndex1, splitOnChar, parseInt, parseNatAll, intChars,
    natChars, Nat.toDigits, Nat.toDigitsCore, sndCwndRaw, cwndKB, dAppend,
    charVal0, charVal1, charVal2, charVal3, charVal4, charVal5, charVal6,
    charVal7, charVal8, charVal9]

theorem isDigit_ne_of_not_digit {c : Char} (h : c.isDigit = true)
    {d : Char} (hd : d.isDigit = false) : c ≠ d := by
  intro e
  rw [e, hd] at h
  exact Bool.false_ne_true h

theorem isDigit_not_ws {c : Char} (h : c.isDigit = true) :
    c.isWhitespace = false := by
  cases hw : c.isWhitespace
  · rfl
  · exfalso
    simp only [Char.isWhitespace, Bool.or_eq_true, decide_eq_true_eq] at hw
    rcases hw with ((h1 | h1) | h1) | h1 <;> subst h1 <;>
      exact absurd h (by decide)

theorem all_digit_not_mem {ds : List Char} (hd : ds.all Char.isDigit = true)
    {c : Char} (hc : c.isDigit = false) : c ∉ ds := by
  intro hm
  have hmem := List.all_eq_true.mp hd c hm
  rw [hc] at hmem
  exact Bool.false_ne_true hmem

theorem dropWhile_eq_self_of_head {p : Char → Bool} :
    ∀ s : List Char, (∀ c ∈ s, p c = false) → s.dropWhile p = s := by
  intro s h
  cases s with
  | nil => rfl
  | cons x rest => simp [List.dropWhile_cons, h x (List.mem_cons_self x rest)]

theorem trimWs_eq_self {s : List Char}
    (h : ∀ c ∈ s, c.isWhitespace = false) : trimWs s = s := by
  rw [trimWs, dropWhile_eq_self_of_head s h,
    dropWhile_eq_self_of_head s.reverse
      (fun c hc => h c (List.mem_reverse.mp hc)),
    List.reverse_reverse]

theorem takeWhile_append_all {p : Char → Bool} :
    ∀ l1 l2 : List Char, (∀ c ∈ l1, p c = true) →
      (l1 ++ l2).takeWhile p = l1 ++ l2.takeWhile p := by
  intro l1 l2
  induction l1 with
  | nil => intro _; rfl
  | cons x rest ih =>
    intro h
    simp only [List.cons_append, List.takeWhile_cons,
      h x (List.mem_cons_self x rest)]
    rw [ih (fun c hc => h c (List.mem_cons_of_mem x hc))]
    rfl

theorem dropWhile_append_all {p : Char → Bool} :
    ∀ l1 l2 : List Char, (∀ c ∈ l1, p c = true) →
      (l1 ++ l2).dropWhile p = l2.dropWhile p := by
  intro l1 l2
  induction l1 with
  | nil => intro _; rfl
  | cons x rest ih =>
    intro h
    simp only [List.cons_append, List.dropWhile_cons,
      h x (List.mem_cons_self x rest)]
    exact ih (fun c hc => h c (List.mem_cons_of_mem x hc))

theorem parseFloat_all_digits {ds : List Char} (h1 : ds ≠ [])
    (h2 : ds.all Char.isDigit = true) :
    parseFloat ds = some (digitsVal ds) := by
  have hall := List.all_eq_true.mp h2
  have htrim : trimWs ds = ds :=
    trimWs_eq_self (fun c hc => isDigit_not_ws (hall c hc))
  cases ds with
  | nil => exact absurd rfl h1
  | cons c u =>
    have hc : c.isDigit = true := hall c (List.mem_cons_self c u)
    have hcm : c ≠ '-' := isDigit_ne_of_not_digit hc (by decide)
    have hcp : c ≠ '+' := isDigit_ne_of_not_digit hc (by decide)
    rw [parseFloat, htrim]
    simp only [hcm, hcp, if_false, if_neg hcm, if_neg hcp]
    have htake : (c :: u).takeWhile Char.isDigit = c :: u := by
      have := takeWhile_append_all (c :: u) [] hall
      simpa using this
    have hdrop : (c :: u).dropWhile Char.isDigit = [] := by
      have := dropWhile_append_all (c :: u) [] hall
      simpa using this
    rw [parseUF]
    simp only [htake, hdrop]
    simp

theorem parseFloat_digits_ms {ds : List Char} (h1 : ds ≠ [])
    (h2 : ds.all Char.isDigit = true) :
    parseFloat (ds ++ "ms".toList) = none := by
  have hall := List.all_eq_true.mp h2
  have hnw : ∀ c ∈ ds ++ "ms".toList, c.isWhitespace = false := by
    intro c hc
    rcases List.mem_append.mp hc with hm | hm
    · exact isDigit_not_ws (hall c hm)
    · have h2m : c = 'm' ∨ c = 's' := by simpa using hm
      rcases h2m with rfl | rfl <;> rfl
  have htrim : trimWs (ds ++ "ms".toList) = ds ++ "ms".toList :=
    trimWs_eq_self hnw
  cases ds with
  | nil => exact absurd rfl h1
  | cons c u =>
    have hc : c.isDigit = true := hall c (List.mem_cons_self c u)
    have hcm : c ≠ '-' := isDigit_ne_of_not_digit hc (by decide)
    have hcp : c ≠ '+' := isDigit_ne_of_not_digit hc (by decide)
    rw [parseFloat, htrim]
    simp only [List.cons_append, if_neg hcm, if_neg hcp]
    have htake : ((c :: u) ++ "ms".toList).takeWhile Char.isDigit =
        (c :: u) ++ ("ms".toList).takeWhile Char.isDigit :=
      takeWhile_append_all (c :: u) ("ms".toList) hall
    have hdrop : ((c :: u) ++ "ms".toList).dropWhile Char.isDigit =
        ("ms".toList).dropWhile Char.isDigit :=
      dropWhile_append_all (c :: u) ("ms".toList) hall
    rw [parseUF]
    simp only [List.cons_append] at htake hdrop
    simp only [htake, hdrop]
    rfl

/-- C8 counterexample: the ping line whose RTT token is `time=23.5ms`
(unit suffix attached to the token) yields no sample at all — the float
conversion of `23.5ms` fails and the line is skipped — rather than the
RTT `23.5` the claim requires. -/
theorem c8_counterexample :
    parse_ping [pingSuffixLine] = [] ∧
    pingTokenVal ("time=23.5ms".toList) = none := by
  constructor <;>
    norm_num +decide [parse_ping, parsePingGo, pingLineRtt, containsSub,
      splitFirstOn, startsW, wsTokens, wsTokensGo, trimWs, List.find?,
      pingTokenVal, splitOnChar, parseFloat, parseUF, digitsVal, pingSuffixLine,
      charVal0, charVal1, charVal2, charVal3, charVal4, charVal5, charVal6,
      charVal7, charVal8, charVal9]

/-- C8 (amended): `parse_ping` requires the substring `bytes from`,
extracts the first token beginning with `time=`, and parses the text
between the first and second `=` directly as a float (no unit-suffix
stripping): a bare decimal token `time=<digits>` yields its value, while a
token with an attached suffix such as `time=<digits>ms` fails the
conversion and the line is skipped; a line with the suffix as a separate
token parses normally. -/
theorem c8_parse_ping_no_suffix_stripping :
    (∀ line : List Char, containsSub ("bytes from".toList) line = false →
        pingLineRtt line = none) ∧
    (∀ ds : List Char, ds ≠ [] → ds.all Char.isDigit = true →
        pingTokenVal ("time=".toList ++ ds) = some (digitsVal ds) ∧
        pingTokenVal (("time=".toList ++ ds) ++ "ms".toList) = none) ∧
    parse_ping [pingPlainLine] = [(0, 47 / 2)] := by
  refine ⟨?_, ?_, ?_⟩
  · intro line h
    have h' : containsSub ['b', 'y', 't', 'e', 's', ' ', 'f', 'r', 'o', 'm']
        line = false := h
    simp [pingLineRtt, h']
  · intro ds h1 h2
    have hne : '=' ∉ ds := all_digit_not_mem h2 (by decide)
    have hne2 : '=' ∉ ds ++ "ms".toList := by
      intro hm
      rcases List.mem_append.mp hm with hm2 | hm2
      · exact hne hm2
      · simp at hm2
    have hsplit1 : splitOnChar '=' ("time=".toList ++ ds) =
        ["time".toList, ds] := by
      have : ("time=".toList ++ ds) = "time".toList ++ '=' :: ds := rfl
      rw [this, splitOnChar_append _ '=' _ (by decide),
        splitOnChar_not_mem ds '=' hne]
    have hsplit2 : splitOnChar '=' (("time=".toList ++ ds) ++ "ms".toList) =
        ["time".toList, ds ++ "ms".toList] := by
      have : (("time=".toList ++ ds) ++ "ms".toList) =
          "time".toList ++ '=' :: (ds ++ "ms".toList) := by simp
      rw [this, splitOnChar_append _ '=' _ (by decide),
        splitOnChar_not_mem _ '=' hne2]
    constructor
    · rw [pingTokenVal, hsplit1]
      simpa using parseFloat_all_digits h1 h2
    · rw [pingTokenVal, hsplit2]
      simpa using parseFloat_digits_ms h1 h2
  · norm_num +decide [parse_ping, parsePingGo, pingLineRtt, containsSub,
      splitFirstOn, startsW, wsTokens, wsTokensGo, trimWs, List.find?,
      pingTokenVal, splitOnChar, parseFloat, parseUF, digitsVal, pingPlainLine,
      charVal0, charVal1, charVal2, charVal3, charVal4, charVal5, charVal6,
      charVal7, charVal8, charVal9]

/-- C8 witness: the amended theorem applied to a marker-less line and to
the digit string `23`. -/
theorem c8_witness :
    pingLineRtt ("PING 10.0.0.1".toList) = none ∧
    pingTokenVal ("time=".toList ++ "23".toList) =
      some (digitsVal ("23".toList)) ∧
    pingTokenVal (("time=".toList ++ "23".toList) ++ "ms".toList) = none :=
  ⟨c8_parse_ping_no_suffix_stripping.1 ("PING 10.0.0.1".toList) (by decide),
   (c8_parse_ping_no_suffix_stripping.2.1 ("23".toList) (by decide) (by decide)).1,
   (c8_parse_ping_no_suffix_stripping.2.1 ("23".toList) (by decide) (by decide)).2⟩

theorem collectSeries_empty_acc (rest : List ProbeAcc) :
    collectSeries ((⟨[], []⟩ : ProbeAcc) :: rest) = collectSeries rest := by
  simp [collectSeries, List.mergeSort_nil]

/-- C7 counterexample: a run of `plot_tcpprobe` over one readable file
with no valid events prints the no-data diagnostic but terminates with
exit status `0`, not the non-zero status the claim requires. -/
theorem c7_counterexample :
    tcpprobeMain [some [[]]] ("5001".toList) true =
      ⟨[Diag.noTcpEvents], 0⟩ := by
  norm_num +decide [tcpprobeMain, parse_tcp_probe_file, probeLineStep,
    probeMarker, splitFirstOn, startsW, plot_cwnd_timeseries, collectSeries,
    alignEvents, allTs, normEvents, dGet, List.mergeSort_nil, List.min?]

/-- C7 (amended): `plot_tcpprobe.main` always exits with status `0`; when
no events are found in any file it reports the condition on the
diagnostic stream (only); a missing input file is caught, reported, and
contributes empty accumulators while processing continues identically on
the remaining files. `plot_ping.main`, by contrast, reports and exits
with status `1` as soon as a file yields no ping samples. -/
theorem c7_diagnostics_and_exit_status :
    (∀ (files : List (Option (List (List Char)))) (port : List Char)
        (us : Bool), (tcpprobeMain files port us).exitCode = 0) ∧
    (∀ (files : List (Option (List (List Char)))) (port : List Char)
        (us : Bool),
        plot_cwnd_timeseries
            ((files.map (fun c => parse_tcp_probe_file c port us)).map
              Prod.fst) = [] →
          Diag.noTcpEvents ∈ (tcpprobeMain files port us).diags) ∧
    (∀ (port : List Char) (us : Bool),
        parse_tcp_probe_file none port us =
          (⟨[], []⟩, [Diag.fileNotFound])) ∧
    (∀ (rest : List (Option (List (List Char)))) (port : List Char)
        (us : Bool),
        tcpprobeMain (none :: rest) port us =
          ⟨Diag.fileNotFound :: (tcpprobeMain rest port us).diags, 0⟩) ∧
    (∀ (lines : List (List Char)) (rest : List (Option (List (List Char)))),
        parse_ping lines = [] →
          pingMain (some lines :: rest) = ⟨[Diag.noPingData], 1⟩) := by
  refine ⟨?_, ?_, ?_, ?_, ?_⟩
  · intro files port us
    rw [tcpprobeMain]
    split <;> rfl
  · intro files port us h
    simp only [tcpprobeMain, h, List.isEmpty_nil]
    simp
  · intro port us
    rfl
  · intro rest port us
    simp only [tcpprobeMain, List.map_cons, parse_tcp_probe_file,
      List.flatMap_cons, plot_cwnd_timeseries, collectSeries_empty_acc]
    split <;> simp
  · intro lines rest h
    simp [pingMain, h]

/-- C7 witness: the amended theorem applied at an empty file list, at a
missing-file head, and at a ping file with an unparsable line. -/
theorem c7_witness :
    (tcpprobeMain [] ("5001".toList) true).exitCode = 0 ∧
    Diag.noTcpEvents ∈ (tcpprobeMain [] ("5001".toList) true).diags ∧
    tcpprobeMain [none] ("5001".toList) true =
      ⟨Diag.fileNotFound :: (tcpprobeMain [] ("5001".toList) true).diags, 0⟩ ∧
    pingMain [some [[]]] = ⟨[Diag.noPingData], 1⟩ :=
  ⟨c7_diagnostics_and_exit_status.1 [] ("5001".toList) true,
   c7_diagnostics_and_exit_status.2.1 [] ("5001".toList) true
     (by simp [plot_cwnd_timeseries, collectSeries, alignEvents, allTs]),
   c7_diagnostics_and_exit_status.2.2.2.1 [] ("5001".toList) true,
   c7_diagnostics_and_exit_status.2.2.2.2 [[]] [] (by decide)⟩

theorem min?_le_mem {l : List ℚ} {m : ℚ} (h : l.min? = some m) :
    ∀ x ∈ l, m ≤ x :=
  (List.le_min?_iff (fun _ _ _ => le_min_iff) h).mp le_rfl

theorem mergeSort_filter_ts (l : List TCPEvent) (τ : ℚ) :
    (l.mergeSort evLe).filter (fun e => decide (e.timestamp = τ)) =
      l.filter (fun e => decide (e.timestamp = τ)) := by
  have hmem : ∀ a ∈ l.filter (fun e => decide (e.timestamp = τ)),
      a.timestamp = τ := by
    intro a ha
    have := List.of_mem_filter ha
    simpa using this
  have hpair : (l.filter (fun e => decide (e.timestamp = τ))).Pairwise
      (fun a b => evLe a b = true) :=
    List.pairwise_of_forall_mem_list
      (fun a ha b hb => by simp [evLe, hmem a ha, hmem b hb])
  have hsub : (l.filter (fun e => decide (e.timestamp = τ))).Sublist
      (l.mergeSort evLe) :=
    List.sublist_mergeSort evLe_trans evLe_total hpair (List.filter_sublist l)
  have hidem : (l.filter (fun e => decide (e.timestamp = τ))).filter
      (fun e => decide (e.timestamp = τ)) =
        l.filter (fun e => decide (e.timestamp = τ)) :=
    List.filter_eq_self.mpr (fun a ha => by simp [hmem a ha])
  have hsub2 : (l.filter (fun e => decide (e.timestamp = τ))).Sublist
      ((l.mergeSort evLe).filter (fun e => decide (e.timestamp = τ))) := by
    have := hsub.filter (fun e => decide (e.timestamp = τ))
    rwa [hidem] at this
  have hperm : ((l.mergeSort evLe).filter
      (fun e => decide (e.timestamp = τ))).Perm
        (l.filter (fun e => decide (e.timestamp = τ))) :=
    (List.mergeSort_perm l evLe).filter _
  exact (hsub2.eq_of_length hperm.length_eq.symm).symm

/-- C2: the aligner computes the global start as the minimum timestamp
over all collected events and is empty exactly when there are none; its
output is a permutation of the input events with the global start
subtracted from every timestamp, is sorted by timestamp, and preserves the
stable input order within every group of equal timestamps; on file A with
raw timestamps `[5,6,7]` and file B with `[2,3,4]` the global start is `2`
and the normalized timestamps are `A = [3,4,5]`, `B = [0,1,2]`. -/
theorem c2_aligner :
    (∀ collected, allTs collected = [] → alignEvents collected = []) ∧
    (∀ collected gs, (allTs collected).min? = some gs →
        gs ∈ allTs collected ∧ ∀ t ∈ allTs collected, gs ≤ t) ∧
    (∀ collected gs, (allTs collected).min? = some gs →
        (alignEvents collected).Perm (normEvents gs collected)) ∧
    (∀ collected, (alignEvents collected).Pairwise
        (fun a b => a.timestamp ≤ b.timestamp)) ∧
    (∀ collected gs (τ : ℚ), (allTs collected).min? = some gs →
        (alignEvents collected).filter (fun e => decide (e.timestamp = τ)) =
          (normEvents gs collected).filter
            (fun e => decide (e.timestamp = τ))) ∧
    ((allTs exCollected).min? = some 2 ∧
      ((alignEvents exCollected).filter
        (fun e => decide (e.sport = 1001))).map TCPEvent.timestamp =
          [3, 4, 5] ∧
      ((alignEvents exCollected).filter
        (fun e => decide (e.sport = 1002))).map TCPEvent.timestamp =
          [0, 1, 2]) := by
  refine ⟨?_, ?_, ?_, ?_, ?_, ?_⟩
  · intro collected h
    simp [alignEvents, h]
  · intro collected gs h
    exact ⟨List.min?_mem (fun a b => min_choice a b) h, min?_le_mem h⟩
  · intro collected gs h
    rw [alignEvents, h]
    exact List.mergeSort_perm _ _
  · intro collected
    rw [alignEvents]
    cases h : (allTs collected).min? with
    | none => simp
    | some gs =>
      have hs := List.sorted_mergeSort evLe_trans evLe_total
        (normEvents gs collected)
      exact hs.imp (fun hab => by simpa [evLe] using hab)
  · intro collected gs τ h
    rw [alignEvents, h]
    exact mergeSort_filter_ts _ τ
  · refine ⟨by norm_num [allTs, exCollected, List.min?, min_def], ?_, ?_⟩ <;>
      norm_num +decide [alignEvents, allTs, normEvents, exCollected,
        List.min?, min_def, List.mergeSort, List.merge, evLe]

/-- C2 witness: the theorem applied at the concrete two-file input (and
the no-events case at the empty input). -/
theorem c2_witness :
    alignEvents [] = [] ∧
    (2 ∈ allTs exCollected) ∧
    (alignEvents exCollected).Perm (normEvents 2 exCollected) :=
  ⟨c2_aligner.1 [] rfl,
   (c2_aligner.2.1 exCollected 2
     (by norm_num [allTs, exCollected, List.min?, min_def])).1,
   c2_aligner.2.2.1 exCollected 2
     (by norm_num [allTs, exCollected, List.min?, min_def])⟩

end A2
